import Mathlib

/-!
A shallow embedding of the content-moderation engine of
`src/bot/cogs/censorship.py` (the `Censorship` cog): the Soundex code,
the Bayesian spam score, the classification pipeline `check_message`,
the lexicon loader `load_banned_words`, the `on_message` handler and the
`delete_expired_messages` sweep, together with theorems settling the
specification claims.

Numeric values that are Python floats in the source (probabilities,
timestamps) are modelled as exact rationals.  Functions that the source
imports from third-party libraries (`nltk.word_tokenize`,
`nltk.stem.PorterStemmer`) are not code of this repository; they are
modelled from the spec where a claim needs them and are otherwise kept
as parameters of the embedded functions.
-/

namespace Censorship

/-! ## Soundex (`Censorship.soundex`, censorship.py lines 147-172) -/

/-- The digit that the `soundex_dict` built at lines 158-162 assigns to an
uppercase character: the six letter groups of the `codes` tuple map to the
digit characters 1..6, and every other character maps to the placeholder
character zero, which is the default of `soundex_dict.get(char, '0')` at
line 166. -/
def soundexDigit (c : Char) : Char :=
  if ("BFPV".toList).contains c then '1'
  else if ("CGJKQSXZ".toList).contains c then '2'
  else if ("DT".toList).contains c then '3'
  else if ("L".toList).contains c then '4'
  else if ("MN".toList).contains c then '5'
  else if ("R".toList).contains c then '6'
  else '0'

/-- One iteration of the loop at lines 165-168: the accumulator is the
`soundex_code` list kept in reverse order, so its head is the most recently
appended symbol (`soundex_code[-1]`); the digit of the current character is
prepended exactly when it differs from that symbol. -/
def soundexStep (acc : List Char) (c : Char) : List Char :=
  match acc with
  | [] => [soundexDigit c]
  | last :: rest =>
    if soundexDigit c = last then last :: rest else soundexDigit c :: last :: rest

/-- The function `Censorship.soundex` (lines 147-172).  The word is
uppercased character-wise (line 157), the code list starts with the first
character (line 164), the loop appends class digits (lines 165-168), all
placeholder zeros are stripped (line 170) and the result is padded with
trailing zeros and truncated to four characters (line 171).  The result is
`none` for the empty word, modelling the `IndexError` that `word[0]`
raises on an empty string. -/
def soundex (word : String) : Option String :=
  match word.toList.map Char.toUpper with
  | [] => none
  | first :: rest =>
    let code := (rest.foldl soundexStep [first]).reverse
    let stripped := code.filter (fun c => c ≠ '0')
    some (String.mk ((stripped ++ ['0', '0', '0', '0']).take 4))

/-! ## Classifier state and the Bayesian score
(`Censorship.calculate_spam_probability`, lines 311-339) -/

/-- The mutable state of the `Censorship` cog that `check_message` reads:
the banned-word set and the phonetic index built by `load_banned_words`
(lines 53, 62, 95-102), and the Bayesian model loaded by
`load_training_data` (lines 65-68). -/
structure CensorState where
  banned_words : List String
  soundex_codes : List (String × String)
  spam_counts : String → Nat
  ham_counts : String → Nat
  total_spam : Nat
  total_ham : Nat

/-- The body of the loop at lines 323-332 of `calculate_spam_probability`:
one pass over the tokens that multiplies both running products by the
Laplace-smoothed per-class likelihood of the token. -/
def spamStep (st : CensorState) (p : ℚ × ℚ) (t : String) : ℚ × ℚ :=
  (p.1 * (((st.spam_counts t : ℚ) + 1) / ((st.total_spam : ℚ) + 2)),
   p.2 * (((st.ham_counts t : ℚ) + 1) / ((st.total_ham : ℚ) + 2)))

/-- The function `Censorship.calculate_spam_probability` (lines 311-339)
over exact rationals: both running products start at 1 (line 321), the loop
multiplies the smoothed likelihoods (lines 323-332), the guard at lines
335-336 returns 0 when the sum of the products is 0, and otherwise the
posterior is returned (line 338). -/
def calculate_spam_probability (st : CensorState) (tokens : List String) : ℚ :=
  let p := tokens.foldl (spamStep st) (1, 1)
  if p.1 + p.2 = 0 then 0 else p.1 / (p.1 + p.2)

/-- The spam-side product exactly as the spec formula states it: the
product, over all tokens, of the factor (spamCount[token]+1)/(totalSpam+2),
starting from 1. -/
def spamProduct (st : CensorState) (tokens : List String) : ℚ :=
  (tokens.map (fun t => ((st.spam_counts t : ℚ) + 1) / ((st.total_spam : ℚ) + 2))).prod

/-- The ham-side product exactly as the spec formula states it: the
product, over all tokens, of the factor (hamCount[token]+1)/(totalHam+2),
starting from 1. -/
def hamProduct (st : CensorState) (tokens : List String) : ℚ :=
  (tokens.map (fun t => ((st.ham_counts t : ℚ) + 1) / ((st.total_ham : ℚ) + 2))).prod

/-! ## The classification pipeline (`Censorship.check_message`, lines 263-295) -/

/-- The first detector of `check_message`: the loop at lines 277-280 that
stems every token (line 274) and tests membership in the banned-word set. -/
def lexicon_fires (st : CensorState) (stem : String → String) (tokens : List String) : Bool :=
  (tokens.map stem).any (fun t => st.banned_words.contains t)

/-- The second detector of `check_message`: the loop at lines 283-287 that
computes the Soundex code of each raw token in order and tests it against
the code values of the phonetic index; `none` models the exception that
`soundex` raises on an empty token escaping the (uncaught) loop. -/
def phoneticCheck (codes : List String) : List String → Option Bool
  | [] => some false
  | t :: ts =>
    match soundex t with
    | none => none
    | some c => if codes.contains c then some true else phoneticCheck codes ts

/-- Whether one raw token's Soundex code collides with some code value of
the phonetic index — the test of lines 284-285 for a single token. -/
def tokenCollides (codes : List String) (t : String) : Bool :=
  match soundex t with
  | some c => codes.contains c
  | none => false

/-- The function `Censorship.check_message` (lines 263-295), parameterised
over the two nltk library functions it calls: `tokenize`
(`nltk.word_tokenize`, via `self.tokenize` at line 273) and `stem`
(`PorterStemmer.stem` at line 274).  The three detectors run in order with
early return: the stemmed-lexicon loop (lines 277-280), the phonetic loop
(lines 283-287) and the Bayesian threshold test (lines 290-293); `none`
models an exception escaping the function. -/
def check_message (st : CensorState) (tokenize : String → List String)
    (stem : String → String) (content : String) : Option Bool :=
  let tokens := tokenize content
  if lexicon_fires st stem tokens then some true
  else
    match phoneticCheck (st.soundex_codes.map Prod.snd) tokens with
    | none => none
    | some true => some true
    | some false =>
      if 9 / 10 < calculate_spam_probability st tokens then some true else some false

/-! ## Character-wise models of Python string methods

The Lean core functions `String.toLower`, `String.trim` and
`String.startsWith` recurse on byte positions by well-founded recursion,
which the kernel cannot evaluate; the equivalents below work on the
character list instead. -/

/-- Python str.lower, character-wise. -/
def pyLower (s : String) : String :=
  String.mk (s.toList.map Char.toLower)

/-- Python str.strip, character-wise: leading and trailing whitespace
characters are removed. -/
def pyStrip (s : String) : String :=
  String.mk (((s.toList.dropWhile Char.isWhitespace).reverse.dropWhile
    Char.isWhitespace).reverse)

/-! ## Tokenizer (modelled from the spec) -/

/-- Helper for `word_tokenize`: walks the character list keeping the
current alphanumeric run in reverse in `acc`, emitting the run whenever a
separator or the end of the text is reached. -/
def tokenizeAux : List Char → List Char → List String
  | [], acc => if acc.isEmpty then [] else [String.mk acc.reverse]
  | c :: cs, acc =>
    if c.isAlphanum then tokenizeAux cs (c :: acc)
    else if acc.isEmpty then tokenizeAux cs []
    else String.mk acc.reverse :: tokenizeAux cs []

/-- Modelled from the spec: `Censorship.tokenize` (lines 297-309) delegates
to `nltk.word_tokenize`, library code that is not part of this repository;
the spec describes it as language-agnostic, punctuation-aware word
tokenization.  We model it as splitting the text into maximal runs of
alphanumeric characters; like the library function it never produces an
empty token. -/
def word_tokenize (text : String) : List String :=
  tokenizeAux text.toList []

/-! ## Porter stemmer (modelled from the spec)

The cog stems with `nltk.stem.PorterStemmer` (line 58), library code that
is not part of this repository.  The spec describes it as a standard
suffix-stripping stemmer, naming the Porter algorithm, and the glossary
gives the example that running stems to run.  The definitions below
implement the classic Porter (1980) algorithm on lowercase words, with the
nltk guard that words of length at most two are returned unchanged. -/

/-- Whether position `i` of `w` holds a consonant in Porter's sense: the
five plain vowels are never consonants, the letter y is a consonant exactly
when it is at the start of the word or preceded by a vowel, and every other
letter is a consonant. -/
def isCons (w : List Char) : Nat → Bool
  | 0 =>
    match w.get? 0 with
    | none => false
    | some c => !(['a', 'e', 'i', 'o', 'u'].contains c)
  | i + 1 =>
    match w.get? (i + 1) with
    | none => false
    | some c =>
      if ['a', 'e', 'i', 'o', 'u'].contains c then false
      else if c = 'y' then !(isCons w i)
      else true

/-- Porter's measure m of a word: the number of vowel-to-consonant
boundaries, which counts the VC blocks of the canonical form. -/
def porterMeasure (w : List Char) : Nat :=
  (List.range w.length).countP
    (fun i => decide (i ≠ 0) && isCons w i && !(isCons w (i - 1)))

/-- Whether the word contains at least one vowel (Porter's star-v-star
condition). -/
def containsVowel (w : List Char) : Bool :=
  (List.range w.length).any (fun i => !(isCons w i))

/-- The last character of a word, with a space as the (unused) default. -/
def lastChar (w : List Char) : Char :=
  (w.get? (w.length - 1)).getD ' '

/-- Whether the word ends in a double consonant (Porter's star-d
condition). -/
def endsDoubleCons (w : List Char) : Bool :=
  decide (2 ≤ w.length) &&
    decide (w.get? (w.length - 1) = w.get? (w.length - 2)) &&
    isCons w (w.length - 1)

/-- Whether the word ends consonant-vowel-consonant where the final
consonant is not w, x or y (Porter's star-o condition). -/
def endsCVC (w : List Char) : Bool :=
  decide (3 ≤ w.length) && isCons w (w.length - 3) && !(isCons w (w.length - 2)) &&
    isCons w (w.length - 1) && !(['w', 'x', 'y'].contains (lastChar w))

/-- Whether the word ends with the given suffix. -/
def endsWithS (w : List Char) (suf : String) : Bool :=
  suf.toList.isSuffixOf w

/-- The word with its last `n` characters removed. -/
def chop (w : List Char) (n : Nat) : List Char :=
  w.take (w.length - n)

/-- Porter step 1a: strip plural suffixes (sses to ss, ies to i, keep ss,
strip a final s). -/
def step1a (w : List Char) : List Char :=
  if endsWithS w "sses" then chop w 2
  else if endsWithS w "ies" then chop w 2
  else if endsWithS w "ss" then w
  else if endsWithS w "s" then chop w 1
  else w

/-- Porter step 1b clean-up after removing ed or ing: restore a final e
after at, bl or iz, undouble a final double consonant other than l, s, z,
and add e to a short cvc stem of measure one. -/
def step1bPost (w : List Char) : List Char :=
  if endsWithS w "at" || endsWithS w "bl" || endsWithS w "iz" then w ++ ['e']
  else if endsDoubleCons w && !(['l', 's', 'z'].contains (lastChar w)) then chop w 1
  else if decide (porterMeasure w = 1) && endsCVC w then w ++ ['e']
  else w

/-- Porter step 1b: eed to ee when the measure of the stem is positive;
strip ed or ing when the stem contains a vowel, then apply the clean-up. -/
def step1b (w : List Char) : List Char :=
  if endsWithS w "eed" then
    if 0 < porterMeasure (chop w 3) then chop w 1 else w
  else if endsWithS w "ed" && containsVowel (chop w 2) then step1bPost (chop w 2)
  else if endsWithS w "ing" && containsVowel (chop w 3) then step1bPost (chop w 3)
  else w

/-- Porter step 1c: turn a final y into i when the stem contains a vowel. -/
def step1c (w : List Char) : List Char :=
  if endsWithS w "y" && containsVowel (chop w 1) then chop w 1 ++ ['i'] else w

/-- Apply the first rule of a suffix-rewrite list whose suffix matches the
word; the rewrite is performed only when the condition holds of the stem,
and no later rule is tried once a suffix matched. -/
def applyFirstRule (cond : List Char → Bool) : List (String × String) → List Char → List Char
  | [], w => w
  | (suf, rep) :: rest, w =>
    if endsWithS w suf then
      if cond (chop w suf.length) then chop w suf.length ++ rep.toList else w
    else applyFirstRule cond rest w

/-- The suffix-rewrite list of Porter step 2, in the order of the 1980
paper (longer suffixes before shorter ones they contain). -/
def step2Rules : List (String × String) :=
  [("ational", "ate"), ("tional", "tion"), ("enci", "ence"), ("anci", "ance"),
   ("izer", "ize"), ("abli", "able"), ("alli", "al"), ("entli", "ent"),
   ("eli", "e"), ("ousli", "ous"), ("ization", "ize"), ("ation", "ate"),
   ("ator", "ate"), ("alism", "al"), ("iveness", "ive"), ("fulness", "ful"),
   ("ousness", "ous"), ("aliti", "al"), ("iviti", "ive"), ("biliti", "ble")]

/-- Porter step 2 (conditions require positive measure of the stem). -/
def step2 (w : List Char) : List Char :=
  applyFirstRule (fun s => 0 < porterMeasure s) step2Rules w

/-- The suffix-rewrite list of Porter step 3. -/
def step3Rules : List (String × String) :=
  [("icate", "ic"), ("ative", ""), ("alize", "al"), ("iciti", "ic"),
   ("ical", "ic"), ("ful", ""), ("ness", "")]

/-- Porter step 3 (conditions require positive measure of the stem). -/
def step3 (w : List Char) : List Char :=
  applyFirstRule (fun s => 0 < porterMeasure s) step3Rules w

/-- The suffix list of Porter step 4, in the order of the 1980 paper. -/
def step4Suffixes : List String :=
  ["al", "ance", "ence", "er", "ic", "able", "ible", "ant", "ement",
   "ment", "ent", "ion", "ou", "ism", "ate", "iti", "ous", "ive", "ize"]

/-- The condition of Porter step 4: the stem must have measure greater than
one, and for the suffix ion it must additionally end in s or t. -/
def step4Cond (suf : String) (s : List Char) : Bool :=
  if suf = "ion" then
    decide (1 < porterMeasure s) && (endsWithS s "s" || endsWithS s "t")
  else decide (1 < porterMeasure s)

/-- Helper for step 4: delete the first matching suffix when its condition
holds of the stem; no later suffix is tried once one matched. -/
def step4Find : List String → List Char → List Char
  | [], w => w
  | suf :: rest, w =>
    if endsWithS w suf then
      if step4Cond suf (chop w suf.length) then chop w suf.length else w
    else step4Find rest w

/-- Porter step 4: delete residual suffixes from stems of measure greater
than one. -/
def step4 (w : List Char) : List Char :=
  step4Find step4Suffixes w

/-- Porter step 5a: drop a final e when the measure of the stem is greater
than one, or equals one and the stem does not end cvc. -/
def step5a (w : List Char) : List Char :=
  if endsWithS w "e" then
    if 1 < porterMeasure (chop w 1) then chop w 1
    else if decide (porterMeasure (chop w 1) = 1) && !(endsCVC (chop w 1)) then chop w 1
    else w
  else w

/-- Porter step 5b: undouble a final double l when the measure is greater
than one. -/
def step5b (w : List Char) : List Char :=
  if decide (1 < porterMeasure w) && endsDoubleCons w && endsWithS w "l" then chop w 1
  else w

/-- Modelled from the spec: the stemmer used at lines 58 and 274 is nltk's
`PorterStemmer.stem`, library code that is not part of this repository; the
spec calls it a standard suffix-stripping stemmer and names the Porter
algorithm.  The word is lowercased, words of length at most two are
returned unchanged (as in nltk), and otherwise the Porter steps are applied
in order. -/
def porterStem (word : String) : String :=
  let w := word.toList.map Char.toLower
  if w.length ≤ 2 then String.mk w
  else String.mk (step5b (step5a (step4 (step3 (step2 (step1c (step1b (step1a w))))))))

/-! ## Lexicon loading (`Censorship.load_banned_words`, lines 83-107) -/

/-- The pure core of `Censorship.load_words_from_file` (lines 109-129):
each line is stripped, empty lines and lines starting with the hash
character are skipped, and the surviving words are lowercased. -/
def load_words_from_file (lines : List String) : List String :=
  lines.filterMap (fun line =>
    let word := pyStrip line
    if word ≠ "" ∧ word.toList.head? ≠ some '#' then some (pyLower word) else none)

/-- The function `Censorship.create_soundex_codes` (lines 131-145): the
mapping from each word to its Soundex code, built word by word; `none`
models the exception `soundex` raises on an empty word. -/
def create_soundex_codes : List String → Option (List (String × String))
  | [] => some []
  | w :: ws =>
    match soundex w, create_soundex_codes ws with
    | some c, some rest => some ((w, c) :: rest)
    | _, _ => none

/-- The lexicon state produced by a load or reload. -/
structure LexiconState where
  banned_words : List String
  exceptions : List String
  soundex_codes : Option (List (String × String))

/-- The pure core of `Censorship.load_banned_words` (lines 83-107): both
word files are parsed (lines 95-96), the exceptions are subtracted from the
banned words (line 99), and the phonetic index is built from the resulting
banned set (line 102).  No stemming is applied anywhere in the loader. -/
def load_banned_words (bannedLines exceptionLines : List String) : LexiconState :=
  let banned0 := load_words_from_file bannedLines
  let exc := load_words_from_file exceptionLines
  let banned := banned0.filter (fun w => !(exc.contains w))
  { banned_words := banned, exceptions := exc, soundex_codes := create_soundex_codes banned }

/-! ## Infractions, the handler and the sweep
(`Censorship.on_message` lines 219-261,
`Censorship.delete_expired_messages` lines 393-425) -/

/-- One row of the `infractions` table (lines 203-213). -/
structure Infraction where
  id : Nat
  message_id : Nat
  channel_id : Nat
  user_id : Nat
  timestamp : ℚ
  deletion_time : ℚ
  content : String
deriving DecidableEq, Repr

/-- The outcome of one deletion request against the chat platform:
success, the two definitive failures that discord reports as `NotFound`
and `Forbidden`, and any other (transient) error.  In the source every
outcome is caught and logged (lines 250-258 and 407-416). -/
inductive DeleteOutcome
  | deleted
  | notFound
  | forbidden
  | otherError
deriving DecidableEq, Repr

/-- The external collaborators: whether `bot.get_channel` resolves a
channel, and the outcome of the fetch-and-delete call for a channel id and
message id. -/
structure World where
  channelExists : Nat → Bool
  deleteResult : Nat → Nat → DeleteOutcome

/-- The externally visible actions of the handler and of the sweep, in
order of emission.  A deletion request records the outcome the platform
returned; the row removal from the store is reflected in the store result
of `delete_expired_messages`, not as an action. -/
inductive Action
  | storeInfraction (row : Infraction)
  | announce (messageId : Nat)
  | sleep (seconds : ℚ)
  | handlerDelete (channelId messageId : Nat) (outcome : DeleteOutcome)
  | sweepDelete (row : Infraction) (outcome : DeleteOutcome)
  | warnChannelMissing (channelId : Nat)
deriving DecidableEq, Repr

/-- A chat message as `on_message` reads it. -/
structure Message where
  id : Nat
  channel_id : Nat
  author_id : Nat
  author_bot : Bool
  created_at : ℚ
  content : String

/-- The listener `Censorship.on_message` (lines 219-261) as the list of
externally visible actions it performs.  Bot authors are ignored (line
230); the content is lowercased before classification (lines 237-238); on a
flagged message the infraction row is stored with deletion time now plus
the configured delay (lines 242-243, `store_infraction` lines 341-358,
which stores the raw content), the infraction is announced (line 246), and
then the handler itself sleeps for the delay and attempts the deletion
(lines 249-258) with every outcome caught.  An exception from
classification is caught at lines 260-261, so nothing is emitted.
`rowId` models the autoincrement row id. -/
def on_message (st : CensorState) (tokenize : String → List String)
    (stem : String → String) (w : World) (delay now : ℚ) (rowId : Nat)
    (msg : Message) : List Action :=
  if msg.author_bot then []
  else
    match check_message st tokenize stem (pyLower msg.content) with
    | none => []
    | some false => []
    | some true =>
      [Action.storeInfraction
        ⟨rowId, msg.id, msg.channel_id, msg.author_id, msg.created_at, now + delay, msg.content⟩,
       Action.announce msg.id,
       Action.sleep delay,
       Action.handlerDelete msg.channel_id msg.id (w.deleteResult msg.channel_id msg.id)]

/-- Processing of one due row inside the sweep loop (lines 403-418): if the
channel resolves, a deletion request is issued and every outcome — success,
not-found, forbidden or any other error — is caught; otherwise only a
warning is logged. -/
def processRow (w : World) (r : Infraction) : List Action :=
  if w.channelExists r.channel_id then
    [Action.sweepDelete r (w.deleteResult r.channel_id r.message_id)]
  else [Action.warnChannelMissing r.channel_id]

/-- One run of the sweep `Censorship.delete_expired_messages` (lines
393-425): the due rows are selected (lines 398-401), each is processed
(lines 403-418), and the row is then removed from the store by its id
(lines 420-422) — the removal is outside the try/except of the deletion
attempt and therefore happens for every due row regardless of the
outcome.  Returns the new store and the emitted actions. -/
def delete_expired_messages (w : World) (store : List Infraction) (now : ℚ) :
    List Infraction × List Action :=
  let due := store.filter (fun r => decide (r.deletion_time ≤ now))
  (due.foldl (fun s r => s.filter (fun x => decide (x.id ≠ r.id))) store,
   due.flatMap (processRow w))

/-- A sequence of sweeps at the given times (the 60-second `tasks.loop`),
with no insertions in between. -/
def runSweeps (w : World) : List ℚ → List Infraction → List Infraction × List Action
  | [], store => (store, [])
  | t :: ts, store =>
    let step := delete_expired_messages w store t
    let rest := runSweeps w ts step.1
    (rest.1, step.2 ++ rest.2)

/-- Whether an action is the sweep's deletion attempt for the row with id
`i`. -/
def isSweepAttemptFor (i : Nat) : Action → Bool
  | Action.sweepDelete r _ => decide (r.id = i)
  | _ => false

/-- The number of sweep deletion attempts for the row with id `i` in a
list of actions. -/
def attemptsFor (i : Nat) (acts : List Action) : Nat :=
  (acts.filter (isSweepAttemptFor i)).length

/-! ## Helper lemmas -/

lemma spamStep_foldl (st : CensorState) (l : List String) (a b : ℚ) :
    l.foldl (spamStep st) (a, b) = (a * spamProduct st l, b * hamProduct st l) := by
  induction l generalizing a b with
  | nil => simp [spamProduct, hamProduct]
  | cons t l ih =>
    show l.foldl (spamStep st) (spamStep st (a, b) t) = _
    rw [show spamStep st (a, b) t
          = (a * (((st.spam_counts t : ℚ) + 1) / ((st.total_spam : ℚ) + 2)),
             b * (((st.ham_counts t : ℚ) + 1) / ((st.total_ham : ℚ) + 2))) from rfl]
    rw [ih]
    unfold spamProduct hamProduct
    simp only [List.map_cons, List.prod_cons, Prod.mk.injEq]
    constructor <;> ring

/-! ## Claim C6 -/

/-- C6: for every token list the Bayesian score equals the
Laplace-smoothed naive-Bayes posterior: the spam and ham products each
start at 1 and multiply the per-token factor (count+1)/(total+2) of the
respective class, the result is spamProduct/(spamProduct+hamProduct), and
it is exactly 0 when both products are exactly 0 (the guard of lines
335-336). -/
theorem calculate_spam_probability_closed_form (st : CensorState) (tokens : List String) :
    calculate_spam_probability st tokens =
      if spamProduct st tokens + hamProduct st tokens = 0 then 0
      else spamProduct st tokens / (spamProduct st tokens + hamProduct st tokens) := by
  unfold calculate_spam_probability
  rw [spamStep_foldl st tokens 1 1]
  simp

/-! ## Claim C7 -/

/-- C7: scoring the empty token list is deterministic and never flags:
both products stay at their seed 1, the score is 1/2, and 1/2 does not
exceed the 9/10 flagging threshold of `check_message`, for every state of
the classifier model. -/
theorem spam_probability_empty_tokens (st : CensorState) :
    calculate_spam_probability st [] = 1 / 2 ∧
      ¬ (9 / 10 < calculate_spam_probability st []) := by
  have h : calculate_spam_probability st [] = 1 / 2 := by
    unfold calculate_spam_probability
    norm_num
  refine ⟨h, ?_⟩
  rw [h]
  norm_num

/-! ## Claim C4 -/

/-- C4 counterexample: in the word Ashcraft the letters s and c belong to
the same Soundex class and are separated only by the unmapped letter h,
yet the code is A226 — the second letter did contribute an additional
digit — and not the value A261 that the claimed across-unmapped tie-break
would produce. -/
theorem soundex_ashcraft_value :
    soundex "Ashcraft" = some "A226" ∧ soundex "Ashcraft" ≠ some "A261" := by
  constructor
  · rfl
  · decide

/-- C4 amended: a digit is dropped only when it equals the immediately
preceding appended symbol; an unmapped letter appends the placeholder
zero (stripped only at the end) and thereby resets the comparison, so
when two letters of the same class are separated by an unmapped letter
the second one does contribute its digit again — and Ashcraft codes to
A226 rather than the classic-Soundex A261. -/
theorem soundex_digit_kept_across_unmapped (acc : List Char) (d u y : Char)
    (hhead : acc.head? = some d) (hu : soundexDigit u = '0')
    (hy : soundexDigit y = d) (hd : d ≠ '0') :
    List.foldl soundexStep acc [u, y] = d :: '0' :: acc ∧
      soundex "Ashcraft" = some "A226" := by
  refine ⟨?_, rfl⟩
  obtain ⟨rest, rfl⟩ : ∃ rest, acc = d :: rest := by
    cases acc with
    | nil => simp at hhead
    | cons a rest =>
      refine ⟨rest, ?_⟩
      simp only [List.head?_cons, Option.some.injEq] at hhead
      rw [hhead]
  have h1 : soundexStep (d :: rest) u = '0' :: d :: rest := by
    simp only [soundexStep, hu]
    rw [if_neg (fun h => hd h.symm)]
  have h2 : soundexStep ('0' :: d :: rest) y = d :: '0' :: d :: rest := by
    simp only [soundexStep, hy]
    rw [if_neg hd]
  simp [h1, h2]

/-- C4 witness: the kept-digit lemma instantiated on the s-h-c fragment of
Ashcraft (accumulator holding the appended digit 2, then the unmapped H
and the class-2 letter C). -/
theorem soundex_digit_kept_across_unmapped_witness :
    List.foldl soundexStep ['2', 'A'] ['H', 'C'] = '2' :: '0' :: ['2', 'A'] :=
  (soundex_digit_kept_across_unmapped ['2', 'A'] '2' 'H' 'C' rfl rfl rfl (by decide)).1

/-! ## Claim C2 (counterexample) -/

/-- C2 counterexample: a sweep at time 5 over a single due row whose
deletion attempt fails with a transient (other) error still removes the
row from the store — the store is empty afterwards, so the next sweep
selects nothing and no retry ever happens. -/
theorem sweep_transient_error_removes_row :
    delete_expired_messages ⟨fun _ => true, fun _ _ => DeleteOutcome.otherError⟩
        [⟨1, 100, 200, 300, 0, 5, "m"⟩] 5
      = ([], [Action.sweepDelete ⟨1, 100, 200, 300, 0, 5, "m"⟩ DeleteOutcome.otherError]) := by
  decide

/-! ## Helper lemmas about tokens and the phonetic loop -/

lemma string_mk_ne_empty (l : List Char) (h : l ≠ []) : String.mk l ≠ "" := by
  intro he
  apply h
  have hd := congrArg String.data he
  simpa using hd

lemma tokenizeAux_ne_nil (cs : List Char) (acc : List Char) :
    ∀ t ∈ tokenizeAux cs acc, t ≠ "" := by
  induction cs generalizing acc with
  | nil =>
    intro t ht
    simp only [tokenizeAux] at ht
    by_cases h : acc.isEmpty
    · simp [h] at ht
    · simp only [if_neg h, List.mem_singleton] at ht
      subst ht
      apply string_mk_ne_empty
      simp only [ne_eq, List.reverse_eq_nil_iff]
      intro hacc
      exact h (by simp [hacc])
  | cons c cs ih =>
    intro t ht
    simp only [tokenizeAux] at ht
    by_cases hc : c.isAlphanum
    · rw [if_pos hc] at ht
      exact ih _ t ht
    · rw [if_neg hc] at ht
      by_cases h : acc.isEmpty
      · rw [if_pos h] at ht
        exact ih _ t ht
      · rw [if_neg h] at ht
        rcases List.mem_cons.mp ht with h1 | h2
        · subst h1
          apply string_mk_ne_empty
          simp only [ne_eq, List.reverse_eq_nil_iff]
          intro hacc
          exact h (by simp [hacc])
        · exact ih _ t h2

lemma word_tokenize_ne_nil (s : String) : ∀ t ∈ word_tokenize s, t ≠ "" :=
  tokenizeAux_ne_nil s.toList []

lemma soundex_isSome (t : String) (h : t ≠ "") : ∃ c, soundex t = some c := by
  obtain ⟨data⟩ := t
  cases data with
  | nil => exact absurd rfl h
  | cons c cs => exact ⟨_, rfl⟩

lemma phoneticCheck_eq_some (codes : List String) (tokens : List String)
    (h : ∀ t ∈ tokens, t ≠ "") :
    phoneticCheck codes tokens = some (tokens.any (tokenCollides codes)) := by
  induction tokens with
  | nil => rfl
  | cons t ts ih =>
    obtain ⟨c, hc⟩ := soundex_isSome t (h t (List.mem_cons_self t ts))
    simp only [phoneticCheck, tokenCollides, hc, List.any_cons]
    by_cases hcc : c ∈ codes
    · simp [hcc]
    · simp [hcc, ih (fun x hx => h x (List.mem_cons_of_mem t hx))]

lemma any_tokenCollides_iff (codes : List String) (tokens : List String) :
    tokens.any (tokenCollides codes) = true ↔
      ∃ t ∈ tokens, ∃ c, soundex t = some c ∧ c ∈ codes := by
  rw [List.any_eq_true]
  constructor
  · rintro ⟨t, ht, htc⟩
    refine ⟨t, ht, ?_⟩
    cases hs : soundex t with
    | none => simp [tokenCollides, hs] at htc
    | some c =>
      simp [tokenCollides, hs] at htc
      exact ⟨c, rfl, htc⟩
  · rintro ⟨t, ht, c, hc, hcc⟩
    refine ⟨t, ht, ?_⟩
    simp [tokenCollides, hc, hcc]

/-! ## Claim C1 -/

/-- C1: `check_message` flags exactly when one of the three detectors
fires, in the fixed order lexicon, then phonetic, then Bayesian, first
match winning: the result is true exactly when some stemmed token is in
the banned set, or else some raw token's Soundex code collides with a
code value of the phonetic index, or else the Bayesian score over the raw
tokens exceeds 9/10; a later detector decides the result only when every
earlier one did not fire.  The hypothesis that the tokenizer produces no
empty token holds for the modelled nltk tokenizer, see
`check_message_total`. -/
theorem check_message_first_match (st : CensorState) (tokenize : String → List String)
    (stem : String → String) (content : String)
    (h : ∀ t ∈ tokenize content, t ≠ "") :
    check_message st tokenize stem content = some true ↔
      (lexicon_fires st stem (tokenize content) = true
       ∨ (lexicon_fires st stem (tokenize content) = false ∧
          (∃ t ∈ tokenize content, ∃ c, soundex t = some c ∧
            c ∈ st.soundex_codes.map Prod.snd))
       ∨ (lexicon_fires st stem (tokenize content) = false ∧
          ¬ (∃ t ∈ tokenize content, ∃ c, soundex t = some c ∧
              c ∈ st.soundex_codes.map Prod.snd) ∧
          9 / 10 < calculate_spam_probability st (tokenize content))) := by
  rw [← any_tokenCollides_iff (st.soundex_codes.map Prod.snd) (tokenize content)]
  simp only [check_message]
  rw [phoneticCheck_eq_some _ _ h]
  cases hl : lexicon_fires st stem (tokenize content)
  · cases ha : (tokenize content).any (tokenCollides (st.soundex_codes.map Prod.snd))
    · by_cases hp : 9 / 10 < calculate_spam_probability st (tokenize content)
      · simp [hp]
      · simp [hp]
    · simp
  · simp

/-- C1 witness: the first-match characterisation instantiated on a
concrete state and message whose lexicon detector fires. -/
theorem check_message_first_match_witness :
    check_message ⟨["run"], [], fun _ => 0, fun _ => 0, 0, 0⟩ word_tokenize porterStem "runs"
      = some true :=
  (check_message_first_match ⟨["run"], [], fun _ => 0, fun _ => 0, 0, 0⟩ word_tokenize
      porterStem "runs" (by decide)).mpr (Or.inl (by decide))

lemma calculate_spam_probability_nil (st : CensorState) :
    calculate_spam_probability st [] = 1 / 2 := by
  unfold calculate_spam_probability
  norm_num

lemma check_message_empty_tokens (st : CensorState) (tokenize : String → List String)
    (stem : String → String) (content : String) (h : tokenize content = []) :
    check_message st tokenize stem content = some false := by
  have hprob : ¬ (9 / 10 < calculate_spam_probability st []) := by
    rw [calculate_spam_probability_nil]
    norm_num
  simp only [check_message, h]
  simp [lexicon_fires, phoneticCheck, hprob]

/-! ## Claim C8 -/

/-- C8: classification is total: with the nltk tokenizer (modelled by
`word_tokenize`, whose tokens are never empty) `check_message` returns a
boolean for every input text — in particular the soundex step, which
fails on an empty word, is never reached with an empty token — and the
empty string or pure punctuation, which tokenize to no tokens, come back
not flagged for every classifier state. -/
theorem check_message_total (st : CensorState) (stem : String → String) (content : String) :
    (∀ t ∈ word_tokenize content, t ≠ "") ∧
    (∃ b, check_message st word_tokenize stem content = some b) ∧
    check_message st word_tokenize stem "" = some false ∧
    check_message st word_tokenize stem "?!." = some false := by
  refine ⟨word_tokenize_ne_nil content, ?_,
    check_message_empty_tokens st word_tokenize stem "" rfl,
    check_message_empty_tokens st word_tokenize stem "?!." rfl⟩
  simp only [check_message]
  rw [phoneticCheck_eq_some _ _ (word_tokenize_ne_nil content)]
  cases lexicon_fires st stem (word_tokenize content)
  · cases (word_tokenize content).any (tokenCollides (st.soundex_codes.map Prod.snd))
    · by_cases hp : 9 / 10 < calculate_spam_probability st (word_tokenize content)
      · exact ⟨true, by simp [hp]⟩
      · exact ⟨false, by simp [hp]⟩
    · exact ⟨true, by simp⟩
  · exact ⟨true, by simp⟩

/-- C8 witness: totality instantiated on a concrete state and the empty
message. -/
theorem check_message_total_witness :
    check_message ⟨[], [], fun _ => 0, fun _ => 0, 0, 0⟩ word_tokenize porterStem ""
      = some false :=
  (check_message_total ⟨[], [], fun _ => 0, fun _ => 0, 0, 0⟩ porterStem "").2.2.1

/-! ## Helper lemmas about the sweep -/

lemma removeById_eq (due store : List Infraction) :
    due.foldl (fun s r => s.filter (fun x => decide (x.id ≠ r.id))) store
      = store.filter (fun x => !(due.any (fun r => decide (r.id = x.id)))) := by
  induction due generalizing store with
  | nil => simp
  | cons r due ih =>
    simp only [List.foldl_cons]
    rw [ih, List.filter_filter]
    apply List.filter_congr
    intro x _
    by_cases hid : r.id = x.id
    · simp [hid]
    · have hid1 : x.id ≠ r.id := fun hx => hid hx.symm
      simp [hid, hid1]

lemma sweep_store_eq (w : World) (store : List Infraction) (now : ℚ)
    (h : (store.map Infraction.id).Nodup) :
    (delete_expired_messages w store now).1
      = store.filter (fun r => !(decide (r.deletion_time ≤ now))) := by
  have hinj := List.inj_on_of_nodup_map h
  show (store.filter (fun r => decide (r.deletion_time ≤ now))).foldl
      (fun s r => s.filter (fun x => decide (x.id ≠ r.id))) store = _
  rw [removeById_eq]
  apply List.filter_congr
  intro x hx
  by_cases hdue : x.deletion_time ≤ now
  · have hany : (store.filter (fun r => decide (r.deletion_time ≤ now))).any
        (fun r => decide (r.id = x.id)) = true := by
      rw [List.any_eq_true]
      exact ⟨x, List.mem_filter.mpr ⟨hx, by simpa using hdue⟩, by simp⟩
    simp [hany, hdue]
  · have hany : (store.filter (fun r => decide (r.deletion_time ≤ now))).any
        (fun r => decide (r.id = x.id)) = false := by
      rw [← Bool.not_eq_true, List.any_eq_true]
      rintro ⟨q, hq, hqid⟩
      rw [List.mem_filter] at hq
      have hqx : q = x := hinj hq.1 hx (by simpa using hqid)
      subst hqx
      exact hdue (by simpa using hq.2)
    simp [hany, hdue]

lemma sweep_store_subset (w : World) (store : List Infraction) (now : ℚ) (r : Infraction)
    (hr : r ∈ (delete_expired_messages w store now).1) : r ∈ store := by
  have he : (delete_expired_messages w store now).1
      = store.filter (fun x =>
          !((store.filter (fun q => decide (q.deletion_time ≤ now))).any
            (fun q => decide (q.id = x.id)))) :=
    removeById_eq _ _
  rw [he] at hr
  exact (List.mem_filter.mp hr).1

lemma sweep_actions_eq (w : World) (store : List Infraction) (now : ℚ) :
    (delete_expired_messages w store now).2
      = (store.filter (fun r => decide (r.deletion_time ≤ now))).flatMap (processRow w) := rfl

lemma attemptsFor_append (i : Nat) (a b : List Action) :
    attemptsFor i (a ++ b) = attemptsFor i a + attemptsFor i b := by
  simp [attemptsFor, List.filter_append]

lemma attemptsFor_processRow (w : World) (i : Nat) (r : Infraction) :
    attemptsFor i (processRow w r)
      = if w.channelExists r.channel_id && decide (r.id = i) then 1 else 0 := by
  unfold processRow attemptsFor
  by_cases hch : w.channelExists r.channel_id = true
  · by_cases hid : r.id = i
    · simp [isSweepAttemptFor, hid, hch]
    · simp [isSweepAttemptFor, hid, hch]
  · simp only [Bool.not_eq_true] at hch
    simp [isSweepAttemptFor, hch]

lemma attemptsFor_flatMap_eq_zero (w : World) (l : List Infraction) (i : Nat)
    (h : ∀ r ∈ l, r.id ≠ i) :
    attemptsFor i (l.flatMap (processRow w)) = 0 := by
  induction l with
  | nil => simp [attemptsFor]
  | cons r l ih =>
    rw [List.flatMap_cons, attemptsFor_append, attemptsFor_processRow]
    have hr : r.id ≠ i := h r (List.mem_cons_self r l)
    rw [ih (fun x hx => h x (List.mem_cons_of_mem r hx))]
    simp [decide_eq_false hr]

lemma attemptsFor_flatMap_le_one (w : World) (l : List Infraction) (i : Nat)
    (h : (l.map Infraction.id).Nodup) :
    attemptsFor i (l.flatMap (processRow w)) ≤ 1 := by
  induction l with
  | nil => simp [attemptsFor]
  | cons r l ih =>
    simp only [List.map_cons, List.nodup_cons] at h
    rw [List.flatMap_cons, attemptsFor_append, attemptsFor_processRow]
    by_cases hid : r.id = i
    · have hzero : attemptsFor i (l.flatMap (processRow w)) = 0 := by
        apply attemptsFor_flatMap_eq_zero
        intro x hx hxi
        have hm : x.id ∈ l.map Infraction.id := List.mem_map_of_mem _ hx
        rw [hxi, ← hid] at hm
        exact h.1 hm
      rw [hzero]
      split <;> simp
    · have hfalse : (w.channelExists r.channel_id && decide (r.id = i)) = false := by
        simp [decide_eq_false hid]
      rw [hfalse]
      simpa using ih h.2

lemma runSweeps_attemptsFor_zero (w : World) (times : List ℚ) (store : List Infraction)
    (i : Nat) (h : ∀ r ∈ store, r.id ≠ i) :
    attemptsFor i (runSweeps w times store).2 = 0 := by
  induction times generalizing store with
  | nil => simp [runSweeps, attemptsFor]
  | cons t ts ih =>
    show attemptsFor i ((delete_expired_messages w store t).2
        ++ (runSweeps w ts (delete_expired_messages w store t).1).2) = 0
    rw [attemptsFor_append]
    have h1 : attemptsFor i (delete_expired_messages w store t).2 = 0 := by
      rw [sweep_actions_eq]
      apply attemptsFor_flatMap_eq_zero
      intro r hr
      exact h r (List.mem_filter.mp hr).1
    have h2 : ∀ r ∈ (delete_expired_messages w store t).1, r.id ≠ i :=
      fun r hr => h r (sweep_store_subset w store t r hr)
    rw [h1, ih _ h2]

lemma runSweeps_attemptsFor_le_one (w : World) (times : List ℚ) (store : List Infraction)
    (h : (store.map Infraction.id).Nodup) (i : Nat) :
    attemptsFor i (runSweeps w times store).2 ≤ 1 := by
  induction times generalizing store with
  | nil => simp [runSweeps, attemptsFor]
  | cons t ts ih =>
    have hnodup : ((delete_expired_messages w store t).1.map Infraction.id).Nodup := by
      rw [sweep_store_eq w store t h]
      exact List.Nodup.sublist (List.Sublist.map _ (List.filter_sublist _)) h
    show attemptsFor i ((delete_expired_messages w store t).2
        ++ (runSweeps w ts (delete_expired_messages w store t).1).2) ≤ 1
    rw [attemptsFor_append]
    by_cases hz : attemptsFor i (delete_expired_messages w store t).2 = 0
    · rw [hz]
      simpa using ih _ hnodup
    · have hle : attemptsFor i (delete_expired_messages w store t).2 ≤ 1 := by
        rw [sweep_actions_eq]
        exact attemptsFor_flatMap_le_one w _ i
          (List.Nodup.sublist (List.Sublist.map _ (List.filter_sublist _)) h)
      have hgone : ∀ r ∈ (delete_expired_messages w store t).1, r.id ≠ i := by
        intro r hr hri
        apply hz
        rw [sweep_actions_eq]
        apply attemptsFor_flatMap_eq_zero
        intro q hq hqi
        rw [List.mem_filter] at hq
        have hrstore : r ∈ store := sweep_store_subset w store t r hr
        have hqr : q = r := List.inj_on_of_nodup_map h hq.1 hrstore (by rw [hqi, hri])
        subst hqr
        rw [sweep_store_eq w store t h, List.mem_filter] at hr
        have hnotdue := hr.2
        rw [hq.2] at hnotdue
        simp at hnotdue
      rw [runSweeps_attemptsFor_zero w ts _ i hgone]
      omega

/-! ## Claim C2 (amended) -/

/-- C2 amended: after the sweep processes a due infraction, the row is
removed from the durable store regardless of the outcome of the deletion
attempt — succeeded, not-found, forbidden, transiently failed, or channel
missing — so nothing is left for a later sweep to retry; and when the
channel resolves, the (possibly transiently failing) deletion attempt for
the row does appear among the sweep actions. -/
theorem sweep_removes_due_row_regardless_of_outcome (w : World) (store : List Infraction)
    (now : ℚ) (r : Infraction) (h : (store.map Infraction.id).Nodup)
    (hr : r ∈ store) (hdue : r.deletion_time ≤ now) :
    r ∉ (delete_expired_messages w store now).1 ∧
    (w.channelExists r.channel_id = true →
      Action.sweepDelete r (w.deleteResult r.channel_id r.message_id)
        ∈ (delete_expired_messages w store now).2) := by
  constructor
  · rw [sweep_store_eq w store now h]
    intro hmem
    rw [List.mem_filter] at hmem
    simp [hdue] at hmem
  · intro hch
    rw [sweep_actions_eq, List.mem_flatMap]
    refine ⟨r, List.mem_filter.mpr ⟨hr, by simpa using hdue⟩, ?_⟩
    simp [processRow, hch]

/-- C2 witness: the removal theorem applied to a concrete due row whose
deletion attempt fails with a transient error. -/
theorem sweep_removes_due_row_witness :
    (⟨1, 100, 200, 300, 0, 5, "m"⟩ : Infraction) ∉
      (delete_expired_messages ⟨fun _ => true, fun _ _ => DeleteOutcome.otherError⟩
        [⟨1, 100, 200, 300, 0, 5, "m"⟩] 5).1 :=
  (sweep_removes_due_row_regardless_of_outcome
      ⟨fun _ => true, fun _ _ => DeleteOutcome.otherError⟩
      [⟨1, 100, 200, 300, 0, 5, "m"⟩] 5 ⟨1, 100, 200, 300, 0, 5, "m"⟩
      (by decide) (by decide) (by norm_num)).1

/-! ## Claim C10 -/

/-- C10: one sweep clears every due row exactly once: after a sweep at
time `now`, no row with deletion time at most `now` remains in the store,
regardless of whether the individual deletion attempts succeeded, found
the message or channel missing, were forbidden, or failed with any other
error; and over any sequence of sweeps the row with a given id is the
subject of at most one sweep deletion attempt (row ids are unique, being
the primary key of the infractions table). -/
theorem sweep_due_rows_cleared_once (w : World) (store : List Infraction) (now : ℚ)
    (times : List ℚ) (h : (store.map Infraction.id).Nodup) :
    (∀ r ∈ (delete_expired_messages w store now).1, ¬ (r.deletion_time ≤ now)) ∧
    (∀ i, attemptsFor i (runSweeps w times store).2 ≤ 1) := by
  constructor
  · intro r hr
    rw [sweep_store_eq w store now h, List.mem_filter] at hr
    simpa using hr.2
  · intro i
    exact runSweeps_attemptsFor_le_one w times store h i

/-- C10 witness: the theorem applied to a one-row store swept twice. -/
theorem sweep_due_rows_cleared_once_witness :
    attemptsFor 1 (runSweeps ⟨fun _ => true, fun _ _ => DeleteOutcome.deleted⟩ [5, 6]
        [⟨1, 100, 200, 300, 0, 5, "m"⟩]).2 ≤ 1 :=
  (sweep_due_rows_cleared_once ⟨fun _ => true, fun _ _ => DeleteOutcome.deleted⟩
      [⟨1, 100, 200, 300, 0, 5, "m"⟩] 5 [5, 6] (by decide)).2 1

/-! ## Claim C3 -/

/-- C3 counterexample: the loader applies no stemming, so with the banned
word running and the one-word message running — where the token equals
the banned word, hence their stems trivially agree — the lexicon detector
does not fire: the Porter stem run of the token is not the stored banned
word running. -/
theorem banned_word_not_stemmed_at_load :
    porterStem "running" = "run" ∧
    (load_banned_words ["running"] []).banned_words = ["running"] ∧
    lexicon_fires ⟨(load_banned_words ["running"] []).banned_words, [],
        fun _ => 0, fun _ => 0, 0, 0⟩ porterStem (word_tokenize "running") = false := by
  refine ⟨rfl, rfl, ?_⟩
  decide

/-- C3 amended: stemming is applied only to message tokens at
classification time; `load_banned_words` stores the lexicon words
literally (stripped, lowercased, exceptions subtracted) with no stemming,
so the lexicon detector fires exactly when the stem of some token
literally equals a stored banned word — a banned word that is not itself
a stem (such as running) is not matched by the lexicon check, not even by
a message containing exactly that word. -/
theorem lexicon_check_literal_match (bannedLines excLines : List String)
    (stem : String → String) (tokens : List String)
    (codes : List (String × String)) (spam ham : String → Nat) (ts th : Nat) :
    (load_banned_words bannedLines excLines).banned_words
      = (load_words_from_file bannedLines).filter
          (fun w => !((load_words_from_file excLines).contains w)) ∧
    (lexicon_fires ⟨(load_banned_words bannedLines excLines).banned_words, codes,
        spam, ham, ts, th⟩ stem tokens = true ↔
      ∃ t ∈ tokens, stem t ∈ (load_banned_words bannedLines excLines).banned_words) := by
  refine ⟨rfl, ?_⟩
  simp only [lexicon_fires, List.any_map, List.any_eq_true, Function.comp]
  simp

/-- C3 witness: the literal-match characterisation instantiated on the
banned file containing running. -/
theorem lexicon_check_literal_match_witness :
    (load_banned_words ["running"] []).banned_words
      = (load_words_from_file ["running"]).filter
          (fun w => !((load_words_from_file []).contains w)) :=
  (lexicon_check_literal_match ["running"] [] porterStem ["running"] []
      (fun _ => 0) (fun _ => 0) 0 0).1

/-! ## Claim C5 -/

/-- C5 counterexample: for a flagged message the handler itself issues a
deletion request after sleeping — the deletion request to the external
message-delivery collaborator is not issued only by the scheduler sweep,
and the handler changes more than the durable record and the audit
event. -/
theorem on_message_issues_delete :
    Action.handlerDelete 200 100 DeleteOutcome.deleted ∈
      on_message ⟨["run"], [], fun _ => 0, fun _ => 0, 0, 0⟩ word_tokenize porterStem
        ⟨fun _ => true, fun _ _ => DeleteOutcome.deleted⟩ 10 5 1
        ⟨100, 200, 300, false, 0, "runs"⟩ := by
  decide

/-- C5 amended: for a non-bot message that classification flags, the
handler stores the infraction row and announces it, but then also itself
sleeps for the deletion delay and issues a deletion request to the
message-delivery collaborator — deletion is attempted by the handler as
well as by the scheduler sweep. -/
theorem on_message_action_trace (st : CensorState) (tokenize : String → List String)
    (stem : String → String) (w : World) (delay now : ℚ) (rowId : Nat) (msg : Message)
    (hbot : msg.author_bot = false)
    (hflag : check_message st tokenize stem (pyLower msg.content) = some true) :
    on_message st tokenize stem w delay now rowId msg =
      [Action.storeInfraction ⟨rowId, msg.id, msg.channel_id, msg.author_id,
          msg.created_at, now + delay, msg.content⟩,
       Action.announce msg.id,
       Action.sleep delay,
       Action.handlerDelete msg.channel_id msg.id (w.deleteResult msg.channel_id msg.id)] := by
  simp [on_message, hbot, hflag]

/-- C5 witness: the handler trace theorem instantiated on a concrete
flagged message. -/
theorem on_message_action_trace_witness :
    on_message ⟨["run"], [], fun _ => 0, fun _ => 0, 0, 0⟩ word_tokenize porterStem
        ⟨fun _ => true, fun _ _ => DeleteOutcome.deleted⟩ 10 5 1
        ⟨100, 200, 300, false, 0, "runs"⟩ =
      [Action.storeInfraction ⟨1, 100, 200, 300, 0, 5 + 10, "runs"⟩,
       Action.announce 100, Action.sleep 10,
       Action.handlerDelete 200 100 DeleteOutcome.deleted] :=
  on_message_action_trace ⟨["run"], [], fun _ => 0, fun _ => 0, 0, 0⟩ word_tokenize porterStem
    ⟨fun _ => true, fun _ _ => DeleteOutcome.deleted⟩ 10 5 1
    ⟨100, 200, 300, false, 0, "runs"⟩ rfl (by decide)

/-! ## Claim C9 -/

lemma create_soundex_codes_mem (words : List String)
    (entries : List (String × String)) (he : create_soundex_codes words = some entries)
    (p : String × String) (hp : p ∈ entries) : p.1 ∈ words := by
  induction words generalizing entries with
  | nil =>
    simp only [create_soundex_codes, Option.some.injEq] at he
    subst he
    simp at hp
  | cons w ws ih =>
    simp only [create_soundex_codes] at he
    cases hs : soundex w with
    | none => rw [hs] at he; simp at he
    | some c =>
      rw [hs] at he
      cases hrest : create_soundex_codes ws with
      | none => rw [hrest] at he; simp at he
      | some rest =>
        rw [hrest] at he
        simp only [Option.some.injEq] at he
        subst he
        rcases List.mem_cons.mp hp with h1 | h2
        · subst h1
          exact List.mem_cons_self _ _
        · exact List.mem_cons_of_mem _ (ih rest hrest h2)

/-- C9 counterexample: with banned word run and exception word runs the
two sets are literally disjoint so the subtraction removes nothing, and
the message token runs — literally an exception word — is flagged by the
lexicon check because its Porter stem run is a banned word. -/
theorem exception_word_lexicon_flagged :
    "runs" ∈ (load_banned_words ["run"] ["runs"]).exceptions ∧
    lexicon_fires ⟨(load_banned_words ["run"] ["runs"]).banned_words, [],
        fun _ => 0, fun _ => 0, 0, 0⟩ porterStem (word_tokenize "runs") = true := by
  decide

/-- C9 amended: after every load the banned set and the exception set are
disjoint, and no exception word keys an entry of the phonetic index; but
a message token equal to an exception word can still be flagged by the
lexicon check when its stem equals a different banned word — the
subtraction removes only the literal exception words, while the lexicon
check compares stems of tokens against the unstemmed banned set. -/
theorem load_banned_words_disjoint (bannedLines excLines : List String) :
    (∀ w ∈ (load_banned_words bannedLines excLines).banned_words,
        w ∉ (load_banned_words bannedLines excLines).exceptions) ∧
    (∀ entries, (load_banned_words bannedLines excLines).soundex_codes = some entries →
        ∀ p ∈ entries, p.1 ∉ (load_banned_words bannedLines excLines).exceptions) := by
  constructor
  · intro w hw
    have hmem := (List.mem_filter.mp hw).2
    simpa using hmem
  · intro entries he p hp
    have he2 : create_soundex_codes
        ((load_banned_words bannedLines excLines).banned_words) = some entries := he
    have hmem : p.1 ∈ (load_banned_words bannedLines excLines).banned_words :=
      create_soundex_codes_mem _ _ he2 p hp
    have hfil := (List.mem_filter.mp hmem).2
    simpa using hfil

/-- C9 witness: the disjointness theorem instantiated on concrete files. -/
theorem load_banned_words_disjoint_witness :
    "run" ∉ (load_banned_words ["run"] ["runs"]).exceptions :=
  (load_banned_words_disjoint ["run"] ["runs"]).1 "run" (by decide)

end Censorship
